import Mathlib

/-!
Verification of the menu container (`nativeui/menu_base.cc`) and the Windows
tab container (`nativeui/win/tab_win.cc`) of the yue GUI toolkit, as a shallow
embedding.  C++ objects are identified by numeric ids (pointer identity),
machine ints by `Int`, the external text-measurement service by an abstract
function argument, and the display scale factor by an integer multiplier.
-/

/-! ## Menu model (`menu_base.cc`) -/

abbrev ItemId := Nat

/-- Platform-peer calls recorded by the menu model, mirroring
`PlatformInsert(item, index)` and `PlatformRemove(item)`. -/
inductive PlatformOp where
  | pInsert (item : ItemId) (index : Nat)
  | pRemove (item : ItemId)
deriving DecidableEq

/-- Embeds `items_.insert(items_.begin() + index, item)` (menu_base.cc:28).
Indices past the end append (the guard at line 26 keeps the index in range). -/
def insertAt : Nat → ItemId → List ItemId → List ItemId
  | 0, a, l => a :: l
  | _ + 1, a, [] => [a]
  | n + 1, a, x :: l => x :: insertAt n a l

/-- Embeds `std::find` followed by `items_.erase(i)` (menu_base.cc:34-39):
erases the first occurrence, if any. -/
def removeFirst : List ItemId → ItemId → List ItemId
  | [], _ => []
  | x :: l, a => if x = a then l else x :: removeFirst l a

/-- The owning-menu backlink `item->menu()`, stored as a global association
list from item id to owning menu id; a missing entry models a null pointer. -/
def lookupMenu : List (ItemId × Nat) → ItemId → Option Nat
  | [], _ => none
  | (a, m) :: l, it => if a = it then some m else lookupMenu l it

/-- Embeds `item->set_menu(nullptr)` (menu_base.cc:38): the item no longer
has any owning-menu binding. -/
def clearOwner : List (ItemId × Nat) → ItemId → List (ItemId × Nat)
  | [], _ => []
  | (a, m) :: l, it => if a = it then clearOwner l it else (a, m) :: clearOwner l it

/-- State of one `MenuBase` plus the backlink fields of all menu items.
`mid` is the identity of this menu (its `this` pointer); `backlinks` maps each
item id to the id of the menu owning it (any menu, not only this one); `ops`
records the platform-peer calls issued, oldest first. -/
structure MenuBase where
  mid : Nat
  items : List ItemId
  backlinks : List (ItemId × Nat)
  ops : List PlatformOp
deriving DecidableEq

/-- `item_count()` as an `int`. -/
def MenuBase.item_count (s : MenuBase) : Int := s.items.length

/-- `MenuBase::Insert(MenuItem* item, int index)` (menu_base.cc:25-31).
`none` models a null item pointer.  The guard refuses a null item, an item
already owned by a menu, or an out-of-range index; otherwise the item is
spliced in, its backlink set to this menu, and the platform peer called. -/
def MenuBase.Insert (s : MenuBase) (item : Option ItemId) (index : Int) : MenuBase :=
  match item with
  | none => s
  | some it =>
    if (lookupMenu s.backlinks it).isSome = true ∨ index < 0 ∨ s.item_count < index then s
    else
      { s with
          items := insertAt index.toNat it s.items,
          backlinks := (it, s.mid) :: s.backlinks,
          ops := s.ops ++ [PlatformOp.pInsert it index.toNat] }

/-- `MenuBase::Remove(MenuItem* item)` (menu_base.cc:33-40): no-op when the
item is not in the sequence, otherwise platform remove, clear backlink, erase
the found (first) occurrence. -/
def MenuBase.Remove (s : MenuBase) (item : ItemId) : MenuBase :=
  if item ∈ s.items then
    { s with
        items := removeFirst s.items item,
        backlinks := clearOwner s.backlinks item,
        ops := s.ops ++ [PlatformOp.pRemove item] }
  else s

/-- `MenuBase::Append(MenuItem* item)` (menu_base.cc:21-23). -/
def MenuBase.Append (s : MenuBase) (item : Option ItemId) : MenuBase :=
  MenuBase.Insert s item s.item_count

/-- Menu states reachable from a freshly constructed menu by the public
mutators.  The constructor state has an empty item list and an empty platform
trace; other menus may already own arbitrary items, but no item can be owned
by this menu before it exists. -/
inductive Reachable : MenuBase → Prop where
  | init (mid : Nat) (bl : List (ItemId × Nat)) (h : ∀ p ∈ bl, p.2 ≠ mid) :
      Reachable { mid := mid, items := [], backlinks := bl, ops := [] }
  | step_insert (s : MenuBase) (it : Option ItemId) (i : Int) :
      Reachable s → Reachable (MenuBase.Insert s it i)
  | step_remove (s : MenuBase) (it : ItemId) :
      Reachable s → Reachable (MenuBase.Remove s it)
  | step_append (s : MenuBase) (it : Option ItemId) :
      Reachable s → Reachable (MenuBase.Append s it)

/-- Structural invariant of the menu container: no item occurs twice in the
sequence, and an item's backlink points to this menu exactly when the item is
in the sequence. -/
def MenuInv (s : MenuBase) : Prop :=
  s.items.Nodup ∧ ∀ it : ItemId, it ∈ s.items ↔ lookupMenu s.backlinks it = some s.mid

/-! ## Tab model (`tab_win.cc`) -/

/-- `ControlState` values used by the tab item (Normal / Hovered / Pressed). -/
inductive ControlState where
  | normal
  | hovered
  | pressed
deriving DecidableEq

/-- The external text-measurement service `MeasureText(text, font)`, returning
an already-ceiled (width, height) extent for a text in a font. -/
abbrev TextMeasure := String → Nat → Int × Int

/-- `TabItem::kHPadding` (tab_win.cc:22). -/
def kHPadding : Int := 2

/-- `TabItem::kVPadding` (tab_win.cc:23). -/
def kVPadding : Int := 1

/-- `TabItem::kTPadding` (tab_win.cc:24). -/
def kTPadding : Int := 1

/-- `TabImpl::kContentPadding` (tab_win.cc:100). -/
def kContentPadding : Int := 5

/-- One tab-strip item (class `TabItem`, tab_win.cc:20-94).  `id` is the
object identity (`this` pointer); `szW`/`szH` is the cached measured size
`size_`; `allocX`/`allocW`/`allocH` is the `size_allocation()` rectangle set
by the container's `Layout` (the container origin is taken as 0). -/
structure TabItem where
  id : Nat
  title : String
  selected : Bool
  cstate : ControlState
  font : Nat
  color : Nat
  szW : Int
  szH : Int
  allocX : Int
  allocW : Int
  allocH : Int
deriving DecidableEq

/-- A freshly constructed `TabItem()` (tab_win.cc:26): empty title, not
selected, default font and color (represented by 0), empty size. -/
def TabItem.new (id : Nat) : TabItem :=
  { id := id, title := "", selected := false, cstate := ControlState.normal,
    font := 0, color := 0, szW := 0, szH := 0, allocX := 0, allocW := 0, allocH := 0 }

/-- `TabItem::SetTitle` (tab_win.cc:30-36): stores the title and recomputes
`size_` as the measured extent enlarged by `2*kHPadding*scale` horizontally
and `2*kVPadding*scale` vertically. -/
def TabItem.SetTitle (m : TextMeasure) (scale : Int) (it : TabItem) (title : String) : TabItem :=
  { it with
      title := title,
      szW := (m title it.font).1 + 2 * kHPadding * scale,
      szH := (m title it.font).2 + 2 * kVPadding * scale }

/-- `TabItem::SetSelected` (tab_win.cc:38-41): sets the flag and forces the
visual state to Pressed when selected, Normal when not. -/
def TabItem.SetSelected (it : TabItem) (b : Bool) : TabItem :=
  { it with selected := b,
            cstate := if b then ControlState.pressed else ControlState.normal }

/-- State of the whole tab area (class `TabImpl`, tab_win.cc:97-284) together
with the page list of the owning `Tab` widget.  `pages` holds the visibility
flag of each page view (the page sequence itself lives in `Tab`, outside this
file; the spec requires it to stay equal in length and order to the item
sequence).  `selIdx` is `selected_item_index_` (-1 when none), `selItem` the
identity of `selected_item_` (`none` for null), `itemsHeight` the cached
`items_height_` with -1 as the not-computed sentinel.  `layouts`,
`invalidates` and `notifies` count the `Layout()` runs, the container
`Invalidate()` repaint requests, and the `on_selected_page_change` emissions. -/
structure TabImpl where
  items : List TabItem
  pages : List Bool
  selIdx : Int
  selItem : Option Nat
  itemsHeight : Int
  font : Nat
  color : Nat
  scale : Int
  nextId : Nat
  layouts : Nat
  invalidates : Nat
  notifies : Nat
deriving DecidableEq

/-- A freshly constructed `TabImpl` with an empty `Tab` page list. -/
def TabImpl.new : TabImpl :=
  { items := [], pages := [], selIdx := -1, selItem := none, itemsHeight := -1,
    font := 0, color := 0, scale := 1, nextId := 0,
    layouts := 0, invalidates := 0, notifies := 0 }

/-- `TabImpl::GetItemsHeight` (tab_win.cc:268-276) without the memoizing
write (the cache write is performed by `Layout`, which calls this): the cached
value, or the height of the reference string "bp" in the container font plus
`(2*kVPadding + kTPadding)*scale` plus the 1-pixel overflow line. -/
def TabImpl.GetItemsHeight (m : TextMeasure) (s : TabImpl) : Int :=
  if s.itemsHeight = -1 then
    (m "bp" s.font).2 + (2 * kVPadding + kTPadding) * s.scale + 1
  else s.itemsHeight

/-- One step of the item placement loop in `TabImpl::Layout`
(tab_win.cc:180-189): the item is allocated its measured width at offset `x`,
with the full strip height, inset by `kTPadding*scale` on top when it is not
the selected item. -/
def layoutOne (h scale x : Int) (it : TabItem) : TabItem :=
  { it with
      allocX := x,
      allocW := it.szW,
      allocH := if it.selected then h else h - kTPadding * scale }

/-- The item placement loop of `TabImpl::Layout`, left to right in insertion
order, advancing `x` by each allocated width. -/
def layoutItems (h scale : Int) : Int → List TabItem → List TabItem
  | _, [] => []
  | x, it :: l => layoutOne h scale x it :: layoutItems h scale (x + it.szW) l

/-- `TabImpl::Layout` (tab_win.cc:178-202): places the items, memoizes the
strip height, sizes the visible page (page geometry is not tracked here) and
requests a repaint. -/
def TabImpl.Layout (m : TextMeasure) (s : TabImpl) : TabImpl :=
  { s with
      items := layoutItems (TabImpl.GetItemsHeight m s) s.scale 0 s.items,
      itemsHeight := TabImpl.GetItemsHeight m s,
      layouts := s.layouts + 1,
      invalidates := s.invalidates + 1 }

/-- `View::SetVisible` on `tab->PageAt(i)`: sets the visibility flag of the
page at an integer index; out-of-range indices leave the list unchanged. -/
def setVisibleAt (pages : List Bool) (i : Int) (b : Bool) : List Bool :=
  if 0 ≤ i then pages.set i.toNat b else pages

/-- `std::distance(begin, std::find_if ...)` used by `SetSelectedItem`
(tab_win.cc:149-152): index of the first item satisfying the predicate, the
length when none does. -/
def findIdxBy (p : TabItem → Bool) : List TabItem → Nat
  | [] => 0
  | it :: l => if p it then 0 else findIdxBy p l + 1

/-- `TabImpl::SetSelectedItem` (tab_win.cc:141-157): deselects the previous
item and hides its page (when there was one), then selects the given item,
recomputes the index by identity lookup, shows the corresponding page, re-runs
layout and emits the `on_selected_page_change` notification. -/
def TabImpl.SetSelectedItem (m : TextMeasure) (s : TabImpl) (itemId : Nat) : TabImpl :=
  let s1 :=
    match s.selItem with
    | some oldId =>
        { s with
            items := s.items.map fun (it : TabItem) => if it.id = oldId then it.SetSelected false else it,
            pages := setVisibleAt s.pages s.selIdx false }
    | none => s
  let j := findIdxBy (fun it => it.id == itemId) s1.items
  let s2 :=
    { s1 with
        selItem := some itemId,
        selIdx := (j : Int),
        items := s1.items.map fun (it : TabItem) => if it.id = itemId then it.SetSelected true else it,
        pages := setVisibleAt s1.pages (j : Int) true }
  let s3 := TabImpl.Layout m s2
  { s3 with notifies := s3.notifies + 1 }

/-- `TabImpl::AddPage` (tab_win.cc:104-112) combined with the page-list
bookkeeping of the owning `Tab` widget.  The page list handling is modelled
from the spec: `Tab` is outside this repository slice and must keep the page
sequence equal in length and order to the item sequence and hide all non-first
pages when they are added (`Tab::PlatformAddPage`, tab_win.cc:292-298).  The
new item gets the given title via `SetTitle` and its `on_select` callback is
wired to `SetSelectedItem`; when it is the first item it is selected
immediately, and layout is re-run. -/
def TabImpl.AddPage (m : TextMeasure) (s : TabImpl) (title : String) : TabImpl :=
  let item := (TabItem.new s.nextId).SetTitle m s.scale title
  let s1 := { s with
                pages := s.pages ++ [s.pages.isEmpty],
                nextId := s.nextId + 1,
                items := s.items ++ [item] }
  let s2 := if s1.items.length = 1 then TabImpl.SetSelectedItem m s1 item.id else s1
  TabImpl.Layout m s2

/-- `TabImpl::RemovePageAt` (tab_win.cc:114-133) combined with the page-list
erasure of the owning `Tab` widget (modelled from the spec: the page sequence
keeps the same length and order as the item sequence).  Out-of-range indices
are a no-op.  When the removed index is the selected one, the sole item case
clears the selection, otherwise `(index + 1) mod pre-removal-count` becomes
the new selected index and that item is marked selected; then the item and its
page are erased and layout re-run.  The code touches no page visibility here. -/
def TabImpl.RemovePageAt (m : TextMeasure) (s : TabImpl) (index : Int) : TabImpl :=
  if index < 0 ∨ (s.items.length : Int) ≤ index then s
  else
    let s1 :=
      if index = s.selIdx then
        if s.items.length = 1 then { s with selIdx := -1, selItem := none }
        else
          let ni := (index.toNat + 1) % s.items.length
          match s.items[ni]? with
          | some it =>
              { s with
                  selIdx := (ni : Int),
                  selItem := some it.id,
                  items := s.items.set ni (it.SetSelected true) }
          | none => s
      else s
    TabImpl.Layout m
      { s1 with
          items := s1.items.eraseIdx index.toNat,
          pages := s1.pages.eraseIdx index.toNat }

/-- `TabImpl::SelectItemAt` (tab_win.cc:135-139): no-op when out of range,
otherwise delegates to `SetSelectedItem` on the item at that index. -/
def TabImpl.SelectItemAt (m : TextMeasure) (s : TabImpl) (index : Int) : TabImpl :=
  if index < 0 ∨ (s.items.length : Int) ≤ index then s
  else
    match s.items[index.toNat]? with
    | some it => TabImpl.SetSelectedItem m s it.id
    | none => s

/-- `TabImpl::SetFont` (tab_win.cc:227-233): stores the font, propagates it to
every item, resets the cached strip height to the -1 sentinel and re-runs
layout (which recomputes and re-memoizes the height). -/
def TabImpl.SetFont (m : TextMeasure) (s : TabImpl) (font : Nat) : TabImpl :=
  TabImpl.Layout m
    { s with
        font := font,
        items := s.items.map fun (it : TabItem) => { it with font := font },
        itemsHeight := -1 }

/-- `TabImpl::SetColor` (tab_win.cc:235-240): stores the color, propagates it
to every item and requests a repaint.  It does not touch the cached strip
height and does not re-run layout. -/
def TabImpl.SetColor (s : TabImpl) (color : Nat) : TabImpl :=
  { s with
      color := color,
      items := s.items.map fun (it : TabItem) => { it with color := color },
      invalidates := s.invalidates + 1 }

/-- `TabImpl::OnDPIChanged` (tab_win.cc:261-265) at a new scale factor:
resets the cached strip height and re-runs layout. -/
def TabImpl.OnDPIChanged (m : TextMeasure) (s : TabImpl) (newScale : Int) : TabImpl :=
  TabImpl.Layout m { s with scale := newScale, itemsHeight := -1 }

/-- The `std::accumulate` over allocated item widths in
`TabImpl::GetMinimumSize` (tab_win.cc:165-167). -/
def sumAllocW (l : List TabItem) : Int := l.foldl (fun a it => a + it.allocW) 0

/-- Sum of the measured (pre-layout) item widths, for comparison. -/
def sumMeasuredW (l : List TabItem) : Int := l.foldl (fun a it => a + it.szW) 0

/-- `TabImpl::GetMinimumSize` (tab_win.cc:164-172): the summed allocated item
widths by the strip height, both enlarged by `2*kContentPadding*scale`. -/
def TabImpl.GetMinimumSize (m : TextMeasure) (s : TabImpl) : Int × Int :=
  (sumAllocW s.items + 2 * kContentPadding * s.scale,
   TabImpl.GetItemsHeight m s + 2 * kContentPadding * s.scale)

/-- `Tab::GetSelectedPageIndex` (tab_win.cc:311-314). -/
def Tab.GetSelectedPageIndex (s : TabImpl) : Int := s.selIdx

/-- Invariant claimed for the tab container: item and page sequences have
equal length, and either there is no selection (index -1, no active item, no
items) or the selected index is valid and exactly the selected page is
visible. -/
def tabInv (s : TabImpl) : Prop :=
  s.items.length = s.pages.length ∧
  ((s.selIdx = -1 ∧ s.selItem = none ∧ s.items = []) ∨
   (0 ≤ s.selIdx ∧ s.selIdx < (s.items.length : Int) ∧ s.selItem.isSome = true ∧
    ∀ k : Nat, k < s.pages.length → (s.pages.getD k false = true ↔ (k : Int) = s.selIdx)))

/-- A concrete text-measurement service for witnesses and counterexamples:
width is the length of the text, height is 1. -/
def measureDemo : TextMeasure := fun t _ => ((t.length : Int), 1)

/-- A tab with three pages "a", "b", "c" and page 1 selected. -/
def c1DemoState : TabImpl :=
  TabImpl.SelectItemAt measureDemo
    (TabImpl.AddPage measureDemo
      (TabImpl.AddPage measureDemo
        (TabImpl.AddPage measureDemo TabImpl.new "a") "b") "c") 1

/-- A tab with two pages "a", "b" and page 0 (auto-)selected. -/
def c1WitState : TabImpl :=
  TabImpl.AddPage measureDemo (TabImpl.AddPage measureDemo TabImpl.new "a") "b"

/-- A tab with two pages "a", "b" and page 0 (auto-)selected. -/
def c2DemoState : TabImpl :=
  TabImpl.AddPage measureDemo (TabImpl.AddPage measureDemo TabImpl.new "a") "b"

/-- A tab with one page "a", selected. -/
def c5DemoState : TabImpl := TabImpl.AddPage measureDemo TabImpl.new "a"

/-- A tab with one page "a", selected; its strip height cache is filled. -/
def c6DemoState : TabImpl := TabImpl.AddPage measureDemo TabImpl.new "a"

/-- A tab with one page "a", for the minimum-size witness. -/
def c7DemoState : TabImpl := TabImpl.AddPage measureDemo TabImpl.new "a"

/-- A fresh menu with id 0 and no item owned by any menu. -/
def menuDemo0 : MenuBase := { mid := 0, items := [], backlinks := [], ops := [] }

/-- A menu with id 0 holding the single item 5. -/
def menuDemo1 : MenuBase :=
  { mid := 0, items := [5], backlinks := [(5, 0)], ops := [PlatformOp.pInsert 5 0] }

/-! ## Menu lemmas -/

theorem mem_insertAt {b a : ItemId} : ∀ {n : Nat} {l : List ItemId},
    b ∈ insertAt n a l ↔ b = a ∨ b ∈ l
  | 0, l => by simp [insertAt]
  | _ + 1, [] => by simp [insertAt]
  | n + 1, x :: l => by
    simp only [insertAt, List.mem_cons, mem_insertAt (n := n) (l := l)]
    tauto

theorem nodup_insertAt {a : ItemId} : ∀ {n : Nat} {l : List ItemId},
    a ∉ l → l.Nodup → (insertAt n a l).Nodup
  | 0, l, ha, hl => by simpa [insertAt] using ⟨ha, hl⟩
  | _ + 1, [], _, _ => by simp [insertAt]
  | n + 1, x :: l, ha, hl => by
    simp only [insertAt, List.nodup_cons] at hl ⊢
    refine ⟨fun hx => ?_, nodup_insertAt (fun h => ha (List.mem_cons_of_mem _ h)) hl.2⟩
    rcases mem_insertAt.1 hx with h | h
    · exact ha (h ▸ List.mem_cons_self x l)
    · exact hl.1 h

theorem removeFirst_sublist : ∀ (l : List ItemId) (a : ItemId),
    List.Sublist (removeFirst l a) l
  | [], _ => List.Sublist.refl _
  | x :: l, a => by
    by_cases h : x = a
    · simp only [removeFirst, if_pos h]
      exact List.sublist_cons_self x l
    · simpa [removeFirst, h] using List.Sublist.cons₂ x (removeFirst_sublist l a)

theorem mem_removeFirst_of_ne {b a : ItemId} (hba : b ≠ a) :
    ∀ {l : List ItemId}, b ∈ removeFirst l a ↔ b ∈ l
  | [] => by simp [removeFirst]
  | x :: l => by
    by_cases h : x = a
    · subst h
      simp [removeFirst, hba]
    · simp [removeFirst, h, mem_removeFirst_of_ne (l := l) hba]

theorem not_mem_removeFirst_self {a : ItemId} :
    ∀ {l : List ItemId}, l.Nodup → a ∉ removeFirst l a
  | [], _ => by simp [removeFirst]
  | x :: l, hl => by
    rw [List.nodup_cons] at hl
    by_cases h : x = a
    · subst h
      simpa [removeFirst] using hl.1
    · simp only [removeFirst, if_neg h, List.mem_cons]
      rintro (rfl | hmem)
      · exact h rfl
      · exact not_mem_removeFirst_self hl.2 hmem

theorem removeFirst_insertAt {a : ItemId} : ∀ {n : Nat} {l : List ItemId},
    a ∉ l → removeFirst (insertAt n a l) a = l
  | 0, l, _ => by simp [insertAt, removeFirst]
  | _ + 1, [], _ => by simp [insertAt, removeFirst]
  | n + 1, x :: l, ha => by
    have hxa : x ≠ a := fun h => ha (h ▸ List.mem_cons_self x l)
    simp only [insertAt, removeFirst, if_neg hxa]
    rw [removeFirst_insertAt (fun h => ha (List.mem_cons_of_mem _ h))]

theorem lookupMenu_clearOwner_self (a : ItemId) :
    ∀ (bl : List (ItemId × Nat)), lookupMenu (clearOwner bl a) a = none
  | [] => rfl
  | (x, m) :: bl => by
    by_cases h : x = a
    · simpa [clearOwner, h] using lookupMenu_clearOwner_self a bl
    · simpa [clearOwner, lookupMenu, h] using lookupMenu_clearOwner_self a bl

theorem lookupMenu_clearOwner_ne {b a : ItemId} (hba : a ≠ b) :
    ∀ (bl : List (ItemId × Nat)), lookupMenu (clearOwner bl a) b = lookupMenu bl b
  | [] => rfl
  | (x, m) :: bl => by
    by_cases h : x = a
    · subst h
      rw [clearOwner, if_pos rfl, lookupMenu, if_neg hba]
      exact lookupMenu_clearOwner_ne hba bl
    · rw [clearOwner, if_neg h, lookupMenu, lookupMenu]
      by_cases hxb : x = b
      · simp [hxb]
      · rw [if_neg hxb, if_neg hxb]
        exact lookupMenu_clearOwner_ne hba bl

theorem clearOwner_of_lookup_none {a : ItemId} :
    ∀ {bl : List (ItemId × Nat)}, lookupMenu bl a = none → clearOwner bl a = bl
  | [], _ => rfl
  | (x, m) :: bl, h => by
    by_cases hx : x = a
    · simp [lookupMenu, hx] at h
    · simp only [lookupMenu, if_neg hx] at h
      simp [clearOwner, hx, clearOwner_of_lookup_none h]

theorem lookupMenu_mem {a : ItemId} {m : Nat} :
    ∀ {bl : List (ItemId × Nat)}, lookupMenu bl a = some m → (a, m) ∈ bl
  | [], h => by simp [lookupMenu] at h
  | (x, mx) :: bl, h => by
    by_cases hx : x = a
    · subst hx
      have hm : mx = m := by simpa [lookupMenu] using h
      exact List.mem_cons.2 (Or.inl (by simp [hm]))
    · simp only [lookupMenu, if_neg hx] at h
      exact List.mem_cons_of_mem _ (lookupMenu_mem h)

theorem menuInv_Insert {s : MenuBase} (h : MenuInv s) (it : Option ItemId) (i : Int) :
    MenuInv (MenuBase.Insert s it i) := by
  match it with
  | none => exact h
  | some a =>
    by_cases hg : (lookupMenu s.backlinks a).isSome = true ∨ i < 0 ∨ s.item_count < i
    · simpa [MenuBase.Insert, hg] using h
    · have hnone : lookupMenu s.backlinks a = none := by
        rcases Option.eq_none_or_eq_some (lookupMenu s.backlinks a) with h0 | ⟨m, h0⟩
        · exact h0
        · exact absurd (Or.inl (by simp [h0])) hg
      have hamem : a ∉ s.items := fun hmem => by
        have := (h.2 a).1 hmem
        rw [hnone] at this
        exact Option.noConfusion this
      simp only [MenuBase.Insert, if_neg hg]
      constructor
      · exact nodup_insertAt hamem h.1
      · intro j
        by_cases hja : j = a
        · subst hja
          simp [mem_insertAt, lookupMenu]
        · have haj : ¬ a = j := fun hh => hja hh.symm
          simp only [mem_insertAt, hja, false_or, lookupMenu, if_neg haj]
          exact h.2 j

theorem menuInv_Remove {s : MenuBase} (h : MenuInv s) (it : ItemId) :
    MenuInv (MenuBase.Remove s it) := by
  by_cases hmem : it ∈ s.items
  · simp only [MenuBase.Remove, if_pos hmem]
    constructor
    · exact List.Nodup.sublist (removeFirst_sublist s.items it) h.1
    · intro j
      by_cases hji : j = it
      · subst hji
        simp [not_mem_removeFirst_self h.1, lookupMenu_clearOwner_self]
      · have hij : it ≠ j := fun hh => hji hh.symm
        simp only [mem_removeFirst_of_ne hji, lookupMenu_clearOwner_ne hij]
        exact h.2 j
  · simpa [MenuBase.Remove, hmem] using h

theorem menu_reachable_inv {s : MenuBase} (h : Reachable s) : MenuInv s := by
  induction h with
  | init mid bl hbl =>
    refine ⟨List.nodup_nil, fun it => ?_⟩
    simp only [List.not_mem_nil, false_iff]
    intro hlk
    exact hbl _ (lookupMenu_mem hlk) rfl
  | step_insert s it i _ ih => exact menuInv_Insert ih it i
  | step_remove s it _ ih => exact menuInv_Remove ih it
  | step_append s it _ ih => exact menuInv_Insert ih it s.item_count

/-! ## Menu claims -/

/-- Claim C3: `MenuBase::Insert(item, index)` leaves the whole state (item
sequence, count, backlinks, platform trace) unchanged when the item is null,
already owned by a menu, or the index is outside `[0, count]`; on success it
splices the item into the sequence at the index, sets its owning-menu backlink
to this menu, and records a platform insert at the same index. -/
theorem insert_guard_and_success (s : MenuBase) (it : ItemId) (i : Int) :
    MenuBase.Insert s none i = s ∧
    ((lookupMenu s.backlinks it).isSome = true → MenuBase.Insert s (some it) i = s) ∧
    (i < 0 → MenuBase.Insert s (some it) i = s) ∧
    (s.item_count < i → MenuBase.Insert s (some it) i = s) ∧
    (lookupMenu s.backlinks it = none → 0 ≤ i → i ≤ s.item_count →
      MenuBase.Insert s (some it) i =
        { s with
            items := insertAt i.toNat it s.items,
            backlinks := (it, s.mid) :: s.backlinks,
            ops := s.ops ++ [PlatformOp.pInsert it i.toNat] }) := by
  refine ⟨rfl, fun h => ?_, fun h => ?_, fun h => ?_, fun h1 h2 h3 => ?_⟩
  · simp [MenuBase.Insert, h]
  · simp [MenuBase.Insert, h]
  · simp [MenuBase.Insert, h]
  · have hg : ¬ ((lookupMenu s.backlinks it).isSome = true ∨ i < 0 ∨ s.item_count < i) := by
      simp [h1, not_lt.2 h2, not_lt.2 h3]
    simp [MenuBase.Insert, hg]

/-- Witness for C3 on a concrete menu: inserting at a negative index and
inserting an already-owned item are no-ops, and a legal insert of the fresh
item 7 at index 1 splices it behind item 5. -/
theorem insert_guard_and_success_witness :
    MenuBase.Insert menuDemo1 (some 7) (-1) = menuDemo1 ∧
    MenuBase.Insert menuDemo1 (some 5) 1 = menuDemo1 ∧
    (MenuBase.Insert menuDemo1 (some 7) 1).items = [5, 7] := by
  refine ⟨(insert_guard_and_success menuDemo1 7 (-1)).2.2.1 (by decide),
          (insert_guard_and_success menuDemo1 5 1).2.1 (by decide), ?_⟩
  rw [(insert_guard_and_success menuDemo1 7 1).2.2.2.2 (by decide) (by decide) (by decide)]
  decide

/-- Claim C4: `MenuBase::Remove(item)` is a no-op when the item is absent; on
success the sequence loses exactly the found occurrence of the item while the
remaining items keep their relative order, the item's owning-menu backlink is
cleared, and exactly one platform remove is recorded. -/
theorem remove_absent_noop_and_success (s : MenuBase) (it : ItemId) :
    (it ∉ s.items → MenuBase.Remove s it = s) ∧
    (it ∈ s.items →
      (MenuBase.Remove s it).items = removeFirst s.items it ∧
      List.Sublist (MenuBase.Remove s it).items s.items ∧
      lookupMenu (MenuBase.Remove s it).backlinks it = none ∧
      (MenuBase.Remove s it).ops = s.ops ++ [PlatformOp.pRemove it]) := by
  constructor
  · intro h
    simp [MenuBase.Remove, h]
  · intro h
    have hs : MenuBase.Remove s it =
        { s with
            items := removeFirst s.items it,
            backlinks := clearOwner s.backlinks it,
            ops := s.ops ++ [PlatformOp.pRemove it] } := by
      simp [MenuBase.Remove, h]
    rw [hs]
    exact ⟨rfl, removeFirst_sublist s.items it, lookupMenu_clearOwner_self it s.backlinks, rfl⟩

/-- Witness for C4 on a concrete menu: removing the absent item 7 changes
nothing; removing the present item 5 empties the sequence, clears its
backlink and records one platform remove. -/
theorem remove_absent_noop_and_success_witness :
    MenuBase.Remove menuDemo1 7 = menuDemo1 ∧
    (MenuBase.Remove menuDemo1 5).items = removeFirst menuDemo1.items 5 ∧
    lookupMenu (MenuBase.Remove menuDemo1 5).backlinks 5 = none ∧
    (MenuBase.Remove menuDemo1 5).ops = menuDemo1.ops ++ [PlatformOp.pRemove 5] :=
  ⟨(remove_absent_noop_and_success menuDemo1 7).1 (by decide),
   ((remove_absent_noop_and_success menuDemo1 5).2 (by decide)).1,
   ((remove_absent_noop_and_success menuDemo1 5).2 (by decide)).2.2.1,
   ((remove_absent_noop_and_success menuDemo1 5).2 (by decide)).2.2.2⟩

/-- Claim C9: in any reachable menu state, inserting an unowned item at a
valid index and then removing it restores the item sequence and the backlink
map exactly, leaves the item's backlink null, and the platform trace grows by
exactly one insert at that index followed by one remove of that item. -/
theorem insert_remove_roundtrip (s : MenuBase) (hr : Reachable s) (it : ItemId) (i : Int)
    (hfree : lookupMenu s.backlinks it = none) (h0 : 0 ≤ i) (h1 : i ≤ s.item_count) :
    (MenuBase.Remove (MenuBase.Insert s (some it) i) it).items = s.items ∧
    (MenuBase.Remove (MenuBase.Insert s (some it) i) it).backlinks = s.backlinks ∧
    lookupMenu (MenuBase.Remove (MenuBase.Insert s (some it) i) it).backlinks it = none ∧
    (MenuBase.Remove (MenuBase.Insert s (some it) i) it).ops =
      s.ops ++ [PlatformOp.pInsert it i.toNat, PlatformOp.pRemove it] := by
  have hinv := menu_reachable_inv hr
  have hnotmem : it ∉ s.items := fun hmem => by
    have := (hinv.2 it).1 hmem
    rw [hfree] at this
    exact Option.noConfusion this
  have hins := (insert_guard_and_success s it i).2.2.2.2 hfree h0 h1
  rw [hins]
  have hmem : it ∈ insertAt i.toNat it s.items := mem_insertAt.2 (Or.inl rfl)
  simp only [MenuBase.Remove, if_pos hmem]
  have hcl : clearOwner ((it, s.mid) :: s.backlinks) it = s.backlinks := by
    simpa [clearOwner] using clearOwner_of_lookup_none hfree
  refine ⟨removeFirst_insertAt hnotmem, hcl, ?_, by simp⟩
  rw [hcl]
  exact hfree

/-- Witness for C9: from the fresh empty menu, inserting item 5 at index 0
and removing it again restores the empty sequence and empty backlink map and
leaves exactly the trace insert-then-remove. -/
theorem insert_remove_roundtrip_witness :
    (MenuBase.Remove (MenuBase.Insert menuDemo0 (some 5) 0) 5).items = menuDemo0.items ∧
    (MenuBase.Remove (MenuBase.Insert menuDemo0 (some 5) 0) 5).backlinks = menuDemo0.backlinks ∧
    lookupMenu (MenuBase.Remove (MenuBase.Insert menuDemo0 (some 5) 0) 5).backlinks 5 = none ∧
    (MenuBase.Remove (MenuBase.Insert menuDemo0 (some 5) 0) 5).ops =
      menuDemo0.ops ++ [PlatformOp.pInsert 5 0, PlatformOp.pRemove 5] :=
  insert_remove_roundtrip menuDemo0
    (Reachable.init 0 [] (by simp)) 5 0 (by decide) (by decide) (by decide)

/-- Claim C10: every menu state reachable from a fresh menu by
Append/Insert/Remove has no duplicate item in its sequence, and an item's
backlink points to this menu exactly when the item is in the sequence. -/
theorem reachable_nodup_backlink (s : MenuBase) (h : Reachable s) : MenuInv s :=
  menu_reachable_inv h

/-- Witness for C10: the invariant holds in the concrete state obtained from
the fresh menu by appending item 5 and then inserting item 3 at index 0. -/
theorem reachable_nodup_backlink_witness :
    MenuInv (MenuBase.Insert (MenuBase.Append menuDemo0 (some 5)) (some 3) 0) :=
  reachable_nodup_backlink _
    (Reachable.step_insert _ _ _
      (Reachable.step_append _ _ (Reachable.init 0 [] (by simp))))

/-! ## Tab lemmas -/

theorem layoutItems_length (h sc : Int) :
    ∀ (x : Int) (l : List TabItem), (layoutItems h sc x l).length = l.length
  | _, [] => rfl
  | x, it :: l => by
    simp only [layoutItems, List.length_cons, layoutItems_length h sc (x + it.szW) l]

theorem layoutItems_map {β : Type} (f : TabItem → β) (h sc : Int)
    (hf : ∀ (x : Int) (it : TabItem), f (layoutOne h sc x it) = f it) :
    ∀ (x : Int) (l : List TabItem), (layoutItems h sc x l).map f = l.map f
  | _, [] => rfl
  | x, it :: l => by
    simp only [layoutItems, List.map_cons, hf, layoutItems_map f h sc hf (x + it.szW) l]

theorem map_pres_map {β : Type} (g : TabItem → TabItem) (f : TabItem → β)
    (hg : ∀ it, f (g it) = f it) : ∀ l : List TabItem, (l.map g).map f = l.map f
  | [] => rfl
  | it :: l => by
    simp only [List.map_cons, hg, map_pres_map g f hg l]

theorem getD_set_self : ∀ (l : List Bool) (k : Nat) (b : Bool),
    k < l.length → (l.set k b).getD k false = b
  | [], k, b, hk => absurd hk (by simp)
  | x :: l, 0, b, _ => rfl
  | x :: l, k + 1, b, hk => by
    simpa [List.set, List.getD] using
      getD_set_self l k b (by simpa using Nat.lt_of_succ_lt_succ hk)

theorem getD_set_ne : ∀ (l : List Bool) (k i : Nat) (b : Bool),
    i ≠ k → (l.set k b).getD i false = l.getD i false
  | [], _, _, _, _ => rfl
  | x :: l, 0, 0, b, hik => absurd rfl hik
  | x :: l, 0, i + 1, b, _ => rfl
  | x :: l, k + 1, 0, b, _ => rfl
  | x :: l, k + 1, i + 1, b, hik => by
    simpa [List.set, List.getD] using
      getD_set_ne l k i b (fun h => hik (by rw [h]))

theorem getD_append_lt : ∀ (l l2 : List Bool) (i : Nat),
    i < l.length → (l ++ l2).getD i false = l.getD i false
  | [], _, i, hi => absurd hi (by simp)
  | x :: l, l2, 0, _ => rfl
  | x :: l, l2, i + 1, hi => by
    simpa [List.getD] using getD_append_lt l l2 i (by simpa using Nat.lt_of_succ_lt_succ hi)

theorem getD_append_len : ∀ (l : List Bool) (b : Bool),
    (l ++ [b]).getD l.length false = b
  | [], b => rfl
  | x :: l, b => by
    simp only [List.cons_append, List.getD_cons_succ]
    exact getD_append_len l b

theorem set_eq_self_of_getD : ∀ (l : List Bool) (k : Nat),
    l.getD k false = true → l.set k true = l
  | [], _, _ => rfl
  | x :: l, 0, hk => by
    simp only [List.getD_cons_zero] at hk
    simp [List.set, hk]
  | x :: l, k + 1, hk => by
    simp only [List.getD_cons_succ] at hk
    simp [List.set, set_eq_self_of_getD l k hk]

theorem findIdxBy_lt_length {p : TabItem → Bool} :
    ∀ {l : List TabItem}, (∃ x ∈ l, p x = true) → findIdxBy p l < l.length
  | [], h => by simp at h
  | it :: l, h => by
    by_cases hp : p it
    · simp [findIdxBy, hp]
    · rcases h with ⟨x, hx, hpx⟩
      rcases List.mem_cons.1 hx with rfl | hx2
      · exact absurd hpx (by simpa using hp)
      · simpa [findIdxBy, hp, Nat.succ_lt_succ_iff] using
          findIdxBy_lt_length ⟨x, hx2, hpx⟩

theorem findIdxBy_eq_of_map_id (id0 : Nat) :
    ∀ (l1 l2 : List TabItem), l1.map TabItem.id = l2.map TabItem.id →
      findIdxBy (fun it => it.id == id0) l1 = findIdxBy (fun it => it.id == id0) l2
  | [], [], _ => rfl
  | [], it :: l, h => by simp at h
  | it :: l, [], h => by simp at h
  | it1 :: l1, it2 :: l2, h => by
    simp only [List.map_cons, List.cons.injEq] at h
    simp only [findIdxBy, h.1, findIdxBy_eq_of_map_id id0 l1 l2 h.2]

theorem map_font_set (f : Nat) : ∀ l : List TabItem,
    (l.map fun (it : TabItem) => { it with font := f }).map TabItem.font = l.map fun _ => f
  | [] => rfl
  | a :: l => by simp [map_font_set f l]

theorem map_color_set (c : Nat) : ∀ l : List TabItem,
    (l.map fun (it : TabItem) => { it with color := c }).map TabItem.color = l.map fun _ => c
  | [] => rfl
  | a :: l => by simp [map_color_set c l]

theorem getItemsHeight_Layout (m : TextMeasure) (s : TabImpl) :
    TabImpl.GetItemsHeight m (TabImpl.Layout m s) = TabImpl.GetItemsHeight m s := by
  show (if (TabImpl.Layout m s).itemsHeight = -1 then
          (m "bp" (TabImpl.Layout m s).font).2 +
            (2 * kVPadding + kTPadding) * (TabImpl.Layout m s).scale + 1
        else (TabImpl.Layout m s).itemsHeight) = TabImpl.GetItemsHeight m s
  have hf : (TabImpl.Layout m s).font = s.font := rfl
  have hsc : (TabImpl.Layout m s).scale = s.scale := rfl
  have hih : (TabImpl.Layout m s).itemsHeight = TabImpl.GetItemsHeight m s := rfl
  rw [hf, hsc, hih]
  by_cases h : s.itemsHeight = -1
  · rw [TabImpl.GetItemsHeight, if_pos h]
    split <;> rfl
  · rw [TabImpl.GetItemsHeight, if_neg h, if_neg h]

theorem foldl_allocW_layoutItems (h sc : Int) :
    ∀ (x a : Int) (l : List TabItem),
      (layoutItems h sc x l).foldl (fun acc it => acc + it.allocW) a
        = l.foldl (fun acc it => acc + it.szW) a
  | _, _, [] => rfl
  | x, a, it :: l => by
    simp only [layoutItems, List.foldl_cons, layoutOne]
    exact foldl_allocW_layoutItems h sc (x + it.szW) (a + it.szW) l

/-- Claim C6 counterexample: on a concrete one-page tab whose strip-height
cache is filled (value 5), setting the foreground color leaves the cached
strip height untouched and runs no layout, contradicting the claim that
setting the color invalidates the cached strip height and triggers relayout. -/
theorem setcolor_no_invalidate_counterexample :
    c6DemoState.itemsHeight = 5 ∧
    (TabImpl.SetColor c6DemoState 7).itemsHeight = 5 ∧
    ¬ (TabImpl.SetColor c6DemoState 7).itemsHeight = -1 ∧
    (TabImpl.SetColor c6DemoState 7).layouts = c6DemoState.layouts := by decide

/-- Claim C6 (amended): `SetFont` propagates the font to every item, discards
the cached strip height (so the height reported after it is recomputed from
the new font) and re-runs layout; `SetColor` propagates the color to every
item and requests a repaint only — it does not invalidate the cached strip
height and does not re-run layout; a DPI change discards the cached strip
height (the height is recomputed at the new scale) and re-runs layout. -/
theorem font_color_dpi_propagation (m : TextMeasure) (s : TabImpl) (f c : Nat) (ns : Int) :
    ((TabImpl.SetFont m s f).items.map TabItem.font = s.items.map fun _ => f) ∧
    (TabImpl.SetFont m s f).font = f ∧
    (TabImpl.SetFont m s f).itemsHeight =
      (m "bp" f).2 + (2 * kVPadding + kTPadding) * s.scale + 1 ∧
    (TabImpl.SetFont m s f).layouts = s.layouts + 1 ∧
    ((TabImpl.SetColor s c).items.map TabItem.color = s.items.map fun _ => c) ∧
    (TabImpl.SetColor s c).itemsHeight = s.itemsHeight ∧
    (TabImpl.SetColor s c).layouts = s.layouts ∧
    (TabImpl.SetColor s c).invalidates = s.invalidates + 1 ∧
    (TabImpl.OnDPIChanged m s ns).itemsHeight =
      (m "bp" s.font).2 + (2 * kVPadding + kTPadding) * ns + 1 ∧
    (TabImpl.OnDPIChanged m s ns).layouts = s.layouts + 1 := by
  refine ⟨?_, rfl, ?_, rfl, ?_, rfl, rfl, rfl, ?_, rfl⟩
  · show ((layoutItems (TabImpl.GetItemsHeight m _) s.scale 0
        (s.items.map fun (it : TabItem) => { it with font := f })).map TabItem.font)
      = s.items.map fun _ => f
    rw [layoutItems_map TabItem.font _ s.scale (fun _ _ => rfl)]
    exact map_font_set f s.items
  · simp [TabImpl.SetFont, TabImpl.Layout, TabImpl.GetItemsHeight]
  · exact map_color_set c s.items
  · simp [TabImpl.OnDPIChanged, TabImpl.Layout, TabImpl.GetItemsHeight]

/-- Claim C7: for a non-empty item set, the minimum size computed after a
layout pass has width equal to the sum of the allocated item widths (which
equal the measured widths) plus `2 * kContentPadding * scale`, and height
equal to the strip height plus `2 * kContentPadding * scale`. -/
theorem minimum_size_formula (m : TextMeasure) (s : TabImpl) (h : s.items ≠ []) :
    (TabImpl.GetMinimumSize m (TabImpl.Layout m s)).1 =
      sumAllocW (TabImpl.Layout m s).items + 2 * kContentPadding * s.scale ∧
    (TabImpl.GetMinimumSize m (TabImpl.Layout m s)).1 =
      sumMeasuredW s.items + 2 * kContentPadding * s.scale ∧
    (TabImpl.GetMinimumSize m (TabImpl.Layout m s)).2 =
      TabImpl.GetItemsHeight m s + 2 * kContentPadding * s.scale := by
  refine ⟨rfl, ?_, ?_⟩
  · show sumAllocW (TabImpl.Layout m s).items + 2 * kContentPadding * (TabImpl.Layout m s).scale
        = sumMeasuredW s.items + 2 * kContentPadding * s.scale
    rw [show (TabImpl.Layout m s).scale = s.scale from rfl]
    rw [show (TabImpl.Layout m s).items
          = layoutItems (TabImpl.GetItemsHeight m s) s.scale 0 s.items from rfl]
    rw [sumAllocW, foldl_allocW_layoutItems]
    rfl
  · show TabImpl.GetItemsHeight m (TabImpl.Layout m s) + 2 * kContentPadding * _
        = TabImpl.GetItemsHeight m s + 2 * kContentPadding * s.scale
    rw [getItemsHeight_Layout]
    rfl

/-- Witness for C7 at a concrete one-page tab. -/
theorem minimum_size_formula_witness :
    (TabImpl.GetMinimumSize measureDemo (TabImpl.Layout measureDemo c7DemoState)).1 =
      sumAllocW (TabImpl.Layout measureDemo c7DemoState).items +
        2 * kContentPadding * c7DemoState.scale ∧
    (TabImpl.GetMinimumSize measureDemo (TabImpl.Layout measureDemo c7DemoState)).1 =
      sumMeasuredW c7DemoState.items + 2 * kContentPadding * c7DemoState.scale ∧
    (TabImpl.GetMinimumSize measureDemo (TabImpl.Layout measureDemo c7DemoState)).2 =
      TabImpl.GetItemsHeight measureDemo c7DemoState +
        2 * kContentPadding * c7DemoState.scale :=
  minimum_size_formula measureDemo c7DemoState (by decide)


theorem layout_items_map {β : Type} (f : TabItem → β)
    (hf2 : ∀ (h sc x : Int) (it : TabItem), f (layoutOne h sc x it) = f it)
    (m : TextMeasure) (s : TabImpl) :
    (TabImpl.Layout m s).items.map f = s.items.map f :=
  layoutItems_map f _ s.scale (fun x it => hf2 _ _ x it) 0 s.items

theorem setSelectedItem_items_map {β : Type} (f : TabItem → β)
    (hf1 : ∀ (it : TabItem) (b : Bool), f (it.SetSelected b) = f it)
    (hf2 : ∀ (h sc x : Int) (it : TabItem), f (layoutOne h sc x it) = f it)
    (m : TextMeasure) (s : TabImpl) (id0 : Nat) :
    (TabImpl.SetSelectedItem m s id0).items.map f = s.items.map f := by
  have hg1 : ∀ (oldId : Nat) (l : List TabItem),
      ((l.map fun (it : TabItem) =>
          if it.id = oldId then it.SetSelected false else it).map f) = l.map f :=
    fun oldId l =>
      map_pres_map _ f (fun it => by by_cases h : it.id = oldId <;> simp [h, hf1]) l
  have hg2 : ∀ (l : List TabItem),
      ((l.map fun (it : TabItem) =>
          if it.id = id0 then it.SetSelected true else it).map f) = l.map f :=
    fun l =>
      map_pres_map _ f (fun it => by by_cases h : it.id = id0 <;> simp [h, hf1]) l
  simp only [TabImpl.SetSelectedItem]
  cases s.selItem with
  | none =>
    rw [layout_items_map f hf2]
    exact hg2 s.items
  | some oldId =>
    rw [layout_items_map f hf2]
    rw [hg2, hg1]

theorem setSelectedItem_layouts (m : TextMeasure) (s : TabImpl) (id0 : Nat) :
    (TabImpl.SetSelectedItem m s id0).layouts = s.layouts + 1 := by
  simp only [TabImpl.SetSelectedItem]
  cases s.selItem <;> rfl

theorem addPage_items_map {β : Type} (f : TabItem → β)
    (hf1 : ∀ (it : TabItem) (b : Bool), f (it.SetSelected b) = f it)
    (hf2 : ∀ (h sc x : Int) (it : TabItem), f (layoutOne h sc x it) = f it)
    (m : TextMeasure) (s : TabImpl) (t : String) :
    (TabImpl.AddPage m s t).items.map f
      = s.items.map f ++ [f ((TabItem.new s.nextId).SetTitle m s.scale t)] := by
  simp only [TabImpl.AddPage]
  by_cases hlen :
      (s.items ++ [(TabItem.new s.nextId).SetTitle m s.scale t]).length = 1
  · rw [if_pos hlen, layout_items_map f hf2, setSelectedItem_items_map f hf1 hf2]
    simp
  · rw [if_neg hlen, layout_items_map f hf2]
    simp

/-- Claim C8: `AddPage(title)` appends a tab item carrying the given title to
the item sequence; on an empty tab container (no items, no pages, no active
item) the new item is immediately selected, `GetSelectedPageIndex()` returns
0, the single item is selected and the single page visible; and layout is
re-run by every `AddPage`. -/
theorem addpage_appends_and_selects_first (m : TextMeasure) (s : TabImpl) (t : String) :
    ((TabImpl.AddPage m s t).items.map TabItem.title = s.items.map TabItem.title ++ [t]) ∧
    (s.items = [] → s.pages = [] → s.selItem = none →
      Tab.GetSelectedPageIndex (TabImpl.AddPage m s t) = 0 ∧
      (TabImpl.AddPage m s t).selItem = some s.nextId ∧
      (TabImpl.AddPage m s t).items.map TabItem.selected = [true] ∧
      (TabImpl.AddPage m s t).pages = [true]) ∧
    s.layouts < (TabImpl.AddPage m s t).layouts := by
  refine ⟨?_, fun h1 h2 h3 => ?_, ?_⟩
  · exact addPage_items_map TabItem.title (fun _ _ => rfl) (fun _ _ _ _ => rfl) m s t
  · refine ⟨?_, ?_, ?_, ?_⟩ <;>
      simp [TabImpl.AddPage, TabImpl.SetSelectedItem, TabImpl.Layout, setVisibleAt,
        findIdxBy, layoutItems, layoutOne, TabItem.SetSelected, TabItem.SetTitle,
        TabItem.new, Tab.GetSelectedPageIndex, h1, h2, h3]
  · simp only [TabImpl.AddPage]
    rw [show ∀ s2 : TabImpl, (TabImpl.Layout m s2).layouts = s2.layouts + 1 from
      fun _ => rfl]
    by_cases hlen :
        (s.items ++ [(TabItem.new s.nextId).SetTitle m s.scale t]).length = 1
    · rw [if_pos hlen, setSelectedItem_layouts]
      show s.layouts < s.layouts + 1 + 1
      omega
    · rw [if_neg hlen]
      show s.layouts < s.layouts + 1
      omega

/-- Witness for C8: one `AddPage` on the fresh tab yields selected page index
0, with the sole item selected, the sole page visible and the title kept. -/
theorem addpage_appends_and_selects_first_witness :
    Tab.GetSelectedPageIndex (TabImpl.AddPage measureDemo TabImpl.new "a") = 0 ∧
    (TabImpl.AddPage measureDemo TabImpl.new "a").selItem = some TabImpl.new.nextId ∧
    (TabImpl.AddPage measureDemo TabImpl.new "a").items.map TabItem.selected = [true] ∧
    (TabImpl.AddPage measureDemo TabImpl.new "a").pages = [true] :=
  (addpage_appends_and_selects_first measureDemo TabImpl.new "a").2.1 rfl rfl rfl

theorem reselect_spec (m : TextMeasure) (s : TabImpl) (id0 : Nat) (j : Nat)
    (h1 : s.selItem = some id0)
    (h2 : findIdxBy (fun it => it.id == id0) s.items = j)
    (h3 : s.selIdx = (j : Int))
    (h5 : s.pages.getD j false = true) :
    (TabImpl.SetSelectedItem m s id0).selIdx = s.selIdx ∧
    (TabImpl.SetSelectedItem m s id0).pages = s.pages ∧
    (TabImpl.SetSelectedItem m s id0).selItem = some id0 ∧
    (TabImpl.SetSelectedItem m s id0).notifies = s.notifies + 1 ∧
    (TabImpl.SetSelectedItem m s id0).layouts = s.layouts + 1 ∧
    (TabImpl.SetSelectedItem m s id0).items.map TabItem.id = s.items.map TabItem.id := by
  have hids : (s.items.map fun (it : TabItem) =>
      if it.id = id0 then it.SetSelected false else it).map TabItem.id
        = s.items.map TabItem.id :=
    map_pres_map _ _ (fun it => by by_cases h : it.id = id0 <;> simp [h, TabItem.SetSelected]) _
  have hj2 : findIdxBy (fun it => it.id == id0)
      (s.items.map fun (it : TabItem) =>
        if it.id = id0 then it.SetSelected false else it) = j :=
    (findIdxBy_eq_of_map_id id0 _ _ hids).trans h2
  have hp1 : setVisibleAt s.pages s.selIdx false = s.pages.set j false := by
    rw [h3]
    simp [setVisibleAt]
  have hp2 : setVisibleAt (s.pages.set j false) ((j : Nat) : Int) true = s.pages := by
    simp [setVisibleAt, List.set_set, set_eq_self_of_getD s.pages j h5]
  simp only [TabImpl.SetSelectedItem, h1, hj2, hp1, hp2]
  refine ⟨h3.symm, rfl, rfl, rfl, rfl, ?_⟩
  rw [layout_items_map TabItem.id (fun _ _ _ _ => rfl)]
  rw [map_pres_map _ _ (fun it => by by_cases h : it.id = id0 <;> simp [h, TabItem.SetSelected]) _]
  exact hids

/-- Claim C5: calling `SetSelectedItem` with the already-selected item keeps
the selected index and the page visibility unchanged while still re-running
layout and re-emitting the selected-page-changed notification; two
consecutive such calls emit two notifications. -/
theorem reselect_relayout_and_notify (m : TextMeasure) (s : TabImpl) (id0 : Nat) (j : Nat)
    (h1 : s.selItem = some id0)
    (h2 : findIdxBy (fun it => it.id == id0) s.items = j)
    (h3 : s.selIdx = (j : Int))
    (h5 : s.pages.getD j false = true) :
    (TabImpl.SetSelectedItem m s id0).selIdx = s.selIdx ∧
    (TabImpl.SetSelectedItem m s id0).pages = s.pages ∧
    (TabImpl.SetSelectedItem m s id0).notifies = s.notifies + 1 ∧
    (TabImpl.SetSelectedItem m s id0).layouts = s.layouts + 1 ∧
    (TabImpl.SetSelectedItem m (TabImpl.SetSelectedItem m s id0) id0).notifies
      = s.notifies + 2 ∧
    (TabImpl.SetSelectedItem m (TabImpl.SetSelectedItem m s id0) id0).selIdx = s.selIdx ∧
    (TabImpl.SetSelectedItem m (TabImpl.SetSelectedItem m s id0) id0).pages = s.pages := by
  obtain ⟨a1, a2, a3, a4, a5, a6⟩ := reselect_spec m s id0 j h1 h2 h3 h5
  have b2 : findIdxBy (fun it => it.id == id0)
      (TabImpl.SetSelectedItem m s id0).items = j :=
    (findIdxBy_eq_of_map_id id0 _ _ a6).trans h2
  have b3 : (TabImpl.SetSelectedItem m s id0).selIdx = (j : Int) := a1.trans h3
  have b5 : (TabImpl.SetSelectedItem m s id0).pages.getD j false = true := by
    rw [a2]
    exact h5
  obtain ⟨c1, c2, c3, c4, c5, c6⟩ :=
    reselect_spec m (TabImpl.SetSelectedItem m s id0) id0 j a3 b2 b3 b5
  refine ⟨a1, a2, a4, a5, ?_, c1.trans a1, c2.trans a2⟩
  rw [c4, a4]

/-- Witness for C5: on the concrete one-page tab with its sole item already
selected, one re-selection call bumps the notification count by one, a second
call by two, and the page visibility stays the same. -/
theorem reselect_relayout_and_notify_witness :
    (TabImpl.SetSelectedItem measureDemo c5DemoState 0).notifies
      = c5DemoState.notifies + 1 ∧
    (TabImpl.SetSelectedItem measureDemo
        (TabImpl.SetSelectedItem measureDemo c5DemoState 0) 0).notifies
      = c5DemoState.notifies + 2 ∧
    (TabImpl.SetSelectedItem measureDemo c5DemoState 0).pages = c5DemoState.pages ∧
    (TabImpl.SetSelectedItem measureDemo c5DemoState 0).selIdx = c5DemoState.selIdx :=
  ⟨(reselect_relayout_and_notify measureDemo c5DemoState 0 0 (by decide) (by decide)
      (by decide) (by decide)).2.2.1,
   (reselect_relayout_and_notify measureDemo c5DemoState 0 0 (by decide) (by decide)
      (by decide) (by decide)).2.2.2.2.1,
   (reselect_relayout_and_notify measureDemo c5DemoState 0 0 (by decide) (by decide)
      (by decide) (by decide)).2.1,
   (reselect_relayout_and_notify measureDemo c5DemoState 0 0 (by decide) (by decide)
      (by decide) (by decide)).1⟩

/-- Claim C1 counterexample: with 3 pages and selected index 1,
`RemovePageAt(1)` leaves the reported selected index at 2 — the pre-removal
position of the newly selected item — not at the claimed post-removal
position 1; and no page is made visible (both remaining pages are hidden). -/
theorem remove_selected_index_counterexample :
    c1DemoState.selIdx = 1 ∧ c1DemoState.items.length = 3 ∧
    (TabImpl.RemovePageAt measureDemo c1DemoState 1).selIdx = 2 ∧
    ¬ (TabImpl.RemovePageAt measureDemo c1DemoState 1).selIdx = 1 ∧
    (TabImpl.RemovePageAt measureDemo c1DemoState 1).pages = [false, false] := by
  decide

/-- Claim C1 (amended): removing the currently selected index leaves no
selection when it was the sole item; otherwise the stored selected index
becomes `(index + 1) mod pre-removal-count` and is not adjusted after the
erase (so it names the new selected item's pre-removal position, which
coincides with its post-removal position only in the wraparound case), the
item at that pre-removal position becomes the active item, page visibility is
not changed beyond the erasure of the removed page, and removing the last
selected index wraps the index to 0. -/
theorem remove_selected_next (m : TextMeasure) (s : TabImpl) (i : Int)
    (h0 : 0 ≤ i) (h1 : i < (s.items.length : Int)) (h2 : i = s.selIdx) :
    (s.items.length = 1 →
      (TabImpl.RemovePageAt m s i).selIdx = -1 ∧
      (TabImpl.RemovePageAt m s i).selItem = none ∧
      (TabImpl.RemovePageAt m s i).pages = s.pages.eraseIdx i.toNat) ∧
    (1 < s.items.length →
      (TabImpl.RemovePageAt m s i).selIdx
        = (((i.toNat + 1) % s.items.length : Nat) : Int) ∧
      (TabImpl.RemovePageAt m s i).selItem
        = (s.items[(i.toNat + 1) % s.items.length]?).map TabItem.id ∧
      (TabImpl.RemovePageAt m s i).pages = s.pages.eraseIdx i.toNat) ∧
    (1 < s.items.length → i.toNat = s.items.length - 1 →
      (TabImpl.RemovePageAt m s i).selIdx = 0) := by
  have hg : ¬ (i < 0 ∨ (s.items.length : Int) ≤ i) := by omega
  refine ⟨fun hlen => ?_, fun hlen => ?_, fun hlen hlast => ?_⟩
  · simp only [TabImpl.RemovePageAt, if_neg hg, if_pos h2, if_pos hlen]
    exact ⟨rfl, rfl, rfl⟩
  · have hne : ¬ s.items.length = 1 := by omega
    have hni : (i.toNat + 1) % s.items.length < s.items.length :=
      Nat.mod_lt _ (by omega)
    have hsome := List.getElem?_eq_getElem hni
    simp only [TabImpl.RemovePageAt, if_neg hg, if_pos h2, if_neg hne, hsome]
    exact ⟨rfl, rfl, rfl⟩
  · have hne : ¬ s.items.length = 1 := by omega
    have hzero : (i.toNat + 1) % s.items.length = 0 := by
      rw [hlast, Nat.sub_add_cancel (by omega), Nat.mod_self]
    have hsome := List.getElem?_eq_getElem (show 0 < s.items.length by omega)
    simp only [TabImpl.RemovePageAt, if_neg hg, if_pos h2, if_neg hne, hzero, hsome]
    rfl

/-- Witness for C1 (amended) on a concrete 2-page tab with index 0 selected:
removing index 0 stores selected index `(0+1) mod 2 = 1` and erases page 0. -/
theorem remove_selected_next_witness :
    (TabImpl.RemovePageAt measureDemo c1WitState 0).selIdx = 1 ∧
    (TabImpl.RemovePageAt measureDemo c1WitState 0).pages
      = c1WitState.pages.eraseIdx 0 := by
  have h := (remove_selected_next measureDemo c1WitState 0 (by decide) (by decide)
      (by decide)).2.1 (by decide)
  exact ⟨by rw [h.1]; decide, h.2.2⟩

theorem tabInv_notifies (s : TabImpl) (n : Nat) (h : tabInv s) :
    tabInv { s with notifies := n } := h

theorem tabInv_Layout (m : TextMeasure) (s : TabImpl) (h : tabInv s) :
    tabInv (TabImpl.Layout m s) := by
  obtain ⟨hlen, hbr⟩ := h
  constructor
  · show (layoutItems (TabImpl.GetItemsHeight m s) s.scale 0 s.items).length = s.pages.length
    rw [layoutItems_length]
    exact hlen
  · rcases hbr with ⟨ha, hb, hc⟩ | ⟨ha, hb, hc, hd⟩
    · left
      refine ⟨ha, hb, ?_⟩
      show layoutItems (TabImpl.GetItemsHeight m s) s.scale 0 s.items = []
      simp [hc, layoutItems]
    · right
      refine ⟨ha, ?_, hc, hd⟩
      show s.selIdx <
        ((layoutItems (TabImpl.GetItemsHeight m s) s.scale 0 s.items).length : Int)
      rw [layoutItems_length]
      exact hb

theorem tabInv_SetSelectedItem (m : TextMeasure) (s : TabImpl) (x : TabItem)
    (hx : x ∈ s.items) (h : tabInv s) : tabInv (TabImpl.SetSelectedItem m s x.id) := by
  obtain ⟨hlen, hbr⟩ := h
  rcases hbr with ⟨ha, hb, hc⟩ | ⟨ha, hb, hc, hd⟩
  · rw [hc] at hx
    simp at hx
  · obtain ⟨oldId, hold⟩ := Option.isSome_iff_exists.1 hc
    have hids : (s.items.map fun (it : TabItem) =>
        if it.id = oldId then it.SetSelected false else it).map TabItem.id
          = s.items.map TabItem.id :=
      map_pres_map _ _
        (fun it => by by_cases hh : it.id = oldId <;> simp [hh, TabItem.SetSelected]) _
    have hjeq : findIdxBy (fun it => it.id == x.id)
        (s.items.map fun (it : TabItem) =>
          if it.id = oldId then it.SetSelected false else it)
          = findIdxBy (fun it => it.id == x.id) s.items :=
      findIdxBy_eq_of_map_id x.id _ _ hids
    have hj : findIdxBy (fun it => it.id == x.id) s.items < s.items.length :=
      findIdxBy_lt_length ⟨x, hx, by simp⟩
    have hjp : findIdxBy (fun it => it.id == x.id) s.items < s.pages.length :=
      hlen ▸ hj
    have hpage1 : setVisibleAt s.pages s.selIdx false
        = s.pages.set s.selIdx.toNat false := by
      simp [setVisibleAt, ha]
    have hpage2 : setVisibleAt (s.pages.set s.selIdx.toNat false)
        ((findIdxBy (fun it => it.id == x.id) s.items : Nat) : Int) true
          = (s.pages.set s.selIdx.toNat false).set
              (findIdxBy (fun it => it.id == x.id) s.items) true := by
      simp [setVisibleAt]
    simp only [TabImpl.SetSelectedItem, hold, hjeq, hpage1, hpage2]
    refine tabInv_notifies _ _ (tabInv_Layout m _ ⟨?_, Or.inr ⟨?_, ?_, ?_, ?_⟩⟩)
    · simp [hlen]
    · exact Int.natCast_nonneg _
    · show ((findIdxBy (fun it => it.id == x.id) s.items : Nat) : Int) < _
      simp only [List.length_map]
      exact_mod_cast hj
    · rfl
    · show ∀ k : Nat, k < ((s.pages.set s.selIdx.toNat false).set
          (findIdxBy (fun it => it.id == x.id) s.items) true).length →
        (((s.pages.set s.selIdx.toNat false).set
            (findIdxBy (fun it => it.id == x.id) s.items) true).getD k false = true ↔
          (k : Int) = ((findIdxBy (fun it => it.id == x.id) s.items : Nat) : Int))
      intro k hk
      simp only [List.length_set] at hk
      have hjp2 : findIdxBy (fun it => it.id == x.id) s.items
          < (s.pages.set s.selIdx.toNat false).length := by
        simpa using hjp
      by_cases hkj : k = findIdxBy (fun it => it.id == x.id) s.items
      · subst hkj
        rw [getD_set_self _ _ _ hjp2]
        simp
      · rw [getD_set_ne _ _ _ _ hkj]
        have hk0lt : s.selIdx.toNat < s.pages.length := by omega
        by_cases hkk0 : k = s.selIdx.toNat
        · subst hkk0
          rw [getD_set_self _ _ _ hk0lt]
          exact iff_of_false (by simp) (by exact_mod_cast hkj)
        · rw [getD_set_ne _ _ _ _ hkk0]
          have hiff := hd k hk
          have hne1 : ¬ (k : Int) = s.selIdx := by omega
          have hne2 : ¬ (k : Int) =
              ((findIdxBy (fun it => it.id == x.id) s.items : Nat) : Int) := by
            exact_mod_cast hkj
          rw [hiff]
          exact iff_of_false hne1 hne2

theorem tabInv_SelectItemAt (m : TextMeasure) (s : TabImpl) (i : Int) (h : tabInv s) :
    tabInv (TabImpl.SelectItemAt m s i) := by
  by_cases hg : i < 0 ∨ (s.items.length : Int) ≤ i
  · simpa [TabImpl.SelectItemAt, hg] using h
  · have hi : i.toNat < s.items.length := by omega
    have hsome := List.getElem?_eq_getElem hi
    simp only [TabImpl.SelectItemAt, if_neg hg, hsome]
    exact tabInv_SetSelectedItem m s _ (s.items.getElem_mem hi) h

theorem tabInv_AddPage (m : TextMeasure) (s : TabImpl) (t : String) (h : tabInv s) :
    tabInv (TabImpl.AddPage m s t) := by
  obtain ⟨hlen, hbr⟩ := h
  rcases hbr with ⟨ha, hb, hc⟩ | ⟨ha, hb, hc, hd⟩
  · have hp : s.pages = [] := by
      rw [hc] at hlen
      exact List.length_eq_zero.1 hlen.symm
    have e1 : (TabImpl.AddPage m s t).pages = [true] := by
      simp [TabImpl.AddPage, TabImpl.SetSelectedItem, TabImpl.Layout, setVisibleAt,
        findIdxBy, TabItem.SetSelected, TabItem.SetTitle, TabItem.new, hc, hp, hb]
    have e2 : (TabImpl.AddPage m s t).selIdx = 0 := by
      simp [TabImpl.AddPage, TabImpl.SetSelectedItem, TabImpl.Layout, setVisibleAt,
        findIdxBy, TabItem.SetSelected, TabItem.SetTitle, TabItem.new, hc, hp, hb]
    have e3 : (TabImpl.AddPage m s t).selItem.isSome = true := by
      simp [TabImpl.AddPage, TabImpl.SetSelectedItem, TabImpl.Layout, setVisibleAt,
        findIdxBy, TabItem.SetSelected, TabItem.SetTitle, TabItem.new, hc, hp, hb]
    have e4 : (TabImpl.AddPage m s t).items.length = 1 := by
      simp [TabImpl.AddPage, TabImpl.SetSelectedItem, TabImpl.Layout, setVisibleAt,
        findIdxBy, layoutItems_length, TabItem.SetSelected, TabItem.SetTitle,
        TabItem.new, hc, hp, hb]
    refine ⟨?_, Or.inr ⟨?_, ?_, e3, ?_⟩⟩
    · rw [e4, e1]
      rfl
    · rw [e2]
    · rw [e2, e4]
      decide
    · intro k hk
      rw [e1] at hk
      rw [e1, e2]
      have hk0 : k = 0 := by
        simp at hk
        omega
      subst hk0
      simp
  · have hif : ¬ (s.items ++ [(TabItem.new s.nextId).SetTitle m s.scale t]).length = 1 := by
      simp only [List.length_append, List.length_cons, List.length_nil]
      omega
    have hemp : s.pages.isEmpty = false := by
      have hplen : 0 < s.pages.length := by omega
      cases hpp : s.pages with
      | nil =>
        rw [hpp] at hplen
        simp at hplen
      | cons a l => rfl
    have e1 : (TabImpl.AddPage m s t).pages = s.pages ++ [false] := by
      simp only [TabImpl.AddPage, if_neg hif, hemp]
      rfl
    have e2 : (TabImpl.AddPage m s t).selIdx = s.selIdx := by
      simp only [TabImpl.AddPage, if_neg hif]
      rfl
    have e3 : (TabImpl.AddPage m s t).selItem = s.selItem := by
      simp only [TabImpl.AddPage, if_neg hif]
      rfl
    have e4 : (TabImpl.AddPage m s t).items.length = s.items.length + 1 := by
      simp only [TabImpl.AddPage, if_neg hif]
      show (layoutItems _ _ 0 _).length = _
      rw [layoutItems_length]
      simp
    refine ⟨?_, Or.inr ⟨?_, ?_, ?_, ?_⟩⟩
    · rw [e4, e1]
      simp [hlen]
    · rw [e2]
      exact ha
    · rw [e2, e4]
      omega
    · rw [e3]
      exact hc
    · intro k hk
      rw [e1] at hk
      rw [e1, e2]
      simp only [List.length_append, List.length_cons, List.length_nil] at hk
      by_cases hkp : k < s.pages.length
      · rw [getD_append_lt _ _ _ hkp]
        exact hd k hkp
      · have hkeq : k = s.pages.length := by omega
        subst hkeq
        rw [getD_append_len]
        refine iff_of_false (by simp) ?_
        omega

/-- Claim C2 counterexample: starting from the fresh tab, two `AddPage` calls
followed by `RemovePageAt(0)` (removing the selected index) leave the stored
selected index at 1 while only one item and one page remain — the index is
valid for neither sequence — and the remaining page is hidden, so no page is
visible at all. -/
theorem tab_invariant_counterexample :
    c2DemoState.selIdx = 0 ∧ c2DemoState.items.length = 2 ∧
    (TabImpl.RemovePageAt measureDemo c2DemoState 0).items.length = 1 ∧
    (TabImpl.RemovePageAt measureDemo c2DemoState 0).pages = [false] ∧
    (TabImpl.RemovePageAt measureDemo c2DemoState 0).selIdx = 1 ∧
    ¬ ((TabImpl.RemovePageAt measureDemo c2DemoState 0).selIdx = -1 ∨
       (TabImpl.RemovePageAt measureDemo c2DemoState 0).selIdx <
         ((TabImpl.RemovePageAt measureDemo c2DemoState 0).items.length : Int)) := by
  decide

/-- Claim C2 (amended): the selection/visibility invariant — equal item and
page counts, selected index -1 with no items or a valid selected index with
exactly the selected page visible — holds in the fresh tab and is preserved by
`AddPage` and by `SelectItemAt` (hence `SetSelectedItem` on an item of the
sequence); `RemovePageAt` does not preserve it (see the counterexample). -/
theorem tab_selected_invariant_amended (m : TextMeasure) (s : TabImpl)
    (t : String) (i : Int) :
    tabInv TabImpl.new ∧
    (tabInv s → tabInv (TabImpl.AddPage m s t)) ∧
    (tabInv s → tabInv (TabImpl.SelectItemAt m s i)) :=
  ⟨⟨rfl, Or.inl ⟨rfl, rfl, rfl⟩⟩, tabInv_AddPage m s t, tabInv_SelectItemAt m s i⟩

/-- Witness for C2 (amended): the invariant holds after adding a page to the
fresh tab and re-selecting index 0. -/
theorem tab_selected_invariant_amended_witness :
    tabInv (TabImpl.SelectItemAt measureDemo
      (TabImpl.AddPage measureDemo TabImpl.new "a") 0) :=
  (tab_selected_invariant_amended measureDemo
      (TabImpl.AddPage measureDemo TabImpl.new "a") "a" 0).2.2
    ((tab_selected_invariant_amended measureDemo TabImpl.new "a" 0).2.1
      (tab_selected_invariant_amended measureDemo TabImpl.new "a" 0).1)
